import Mathlib

/-!
Verification development for the warpmcp request-processing core.

The definitions below are shallow embeddings of the Rust sources:
`src/server.rs` (batch dispatch pipeline), `src/cache.rs` (response cache
and output buffer), `src/utils.rs` (Redis connection manager) and
`src/tools/search.rs` (query builder and search-reply decoder).
Machine integers are modelled as `Nat`/`Int`, JSON numbers as exact
rationals, byte strings as `String`, and time (`Instant`) as a `Nat`
tick count.  Fallible or possibly non-terminating loops are modelled
with explicit fuel and an outcome type that distinguishes normal
return, panic and fuel exhaustion.
-/

namespace Warp

/-- Model of `serde_json::Value`.  Objects are association lists in
insertion order; numbers are exact rationals. -/
inductive Json where
  | null : Json
  | bool (b : Bool) : Json
  | num (q : ℚ) : Json
  | str (s : String) : Json
  | arr (xs : List Json) : Json
  | obj (kvs : List (String × Json)) : Json

namespace Json

/-- `Value::get(key)` on an object: first binding wins (serde maps have
unique keys, so the first binding is the binding). -/
def getKey? : Json → String → Option Json
  | .obj kvs, k => (kvs.find? (fun p => p.1 == k)).map Prod.snd
  | _, _ => none

/-- `Value::as_str()`. -/
def asStr? : Json → Option String
  | .str s => some s
  | _ => none

/-- Is this JSON value an object (`Value::as_object()` succeeds)? -/
def isObj : Json → Bool
  | .obj _ => true
  | _ => false

/-- Insert-or-replace one key in an object association list, as
`serde_json::Map::insert` behaves (replaces in place, appends if new). -/
def setIn (kvs : List (String × Json)) (k : String) (v : Json) :
    List (String × Json) :=
  match kvs with
  | [] => [(k, v)]
  | (k', v') :: rest =>
      if k' == k then (k', v) :: rest else (k', v') :: setIn rest k v

/-- `doc[key] = value` on an object; non-objects are untouched (the code
only ever applies it to objects). -/
def setKey : Json → String → Json → Json
  | .obj kvs, k, v => .obj (setIn kvs k v)
  | j, _, _ => j

/-- `Map::extend` with the bindings of another object, in order. -/
def extendObj : Json → List (String × Json) → Json
  | .obj kvs, new => .obj (new.foldl (fun acc p => setIn acc p.1 p.2) kvs)
  | j, _ => j

end Json

/-! ### Query builder (`src/tools/search.rs`, lines 113–149)

`QueryBuilder` keeps a growing list of clause strings; `build` joins
them with single spaces, or yields the match-all wildcard when empty. -/

/-- `QueryBuilder { parts: Vec<String> }`. -/
structure QueryBuilder where
  parts : List String
  deriving Repr, DecidableEq

namespace QueryBuilder

/-- `QueryBuilder::new()`. -/
def new : QueryBuilder := ⟨[]⟩

/-- `QueryBuilder::text_match(field, value, fuzzy)`:
fuzzy gives `@field:%value%`, exact gives `@field:value`. -/
def text_match (b : QueryBuilder) (field value : String) (fuzzy : Bool) :
    QueryBuilder :=
  let q := if fuzzy then "@" ++ field ++ ":%" ++ value ++ "%"
           else "@" ++ field ++ ":" ++ value
  ⟨b.parts ++ [q]⟩

/-- `QueryBuilder::tag_filter(field, value)`: `@field:{value}`. -/
def tag_filter (b : QueryBuilder) (field value : String) : QueryBuilder :=
  ⟨b.parts ++ ["@" ++ field ++ ":\x7b" ++ value ++ "\x7d"]⟩

/-- Decimal rendering of a rational that is exact on the inputs the
code produces; stands in for Rust's `f64` `Display` in the numeric
range clause. -/
def fmtNum (q : ℚ) : String :=
  if q.den == 1 then toString q.num else toString q

/-- `QueryBuilder::numeric_range(field, min, max)`: `@field:[min max]`. -/
def numeric_range (b : QueryBuilder) (field : String) (min max : ℚ) :
    QueryBuilder :=
  ⟨b.parts ++ ["@" ++ field ++ ":[" ++ fmtNum min ++ " " ++ fmtNum max ++ "]"]⟩

/-- `QueryBuilder::build()`: `*` when no clauses, else space-joined. -/
def build (b : QueryBuilder) : String :=
  if b.parts.isEmpty then "*" else String.intercalate " " b.parts

end QueryBuilder

/-- `SearchParams` (`src/tools/search.rs`, lines 71–84); only the fields
the query construction reads are carried with query-relevant types. -/
structure SearchParams where
  query : String
  filters : List (String × String)
  numeric_filters : List (String × ℚ × ℚ)
  limit : Option Nat := some 10
  offset : Option Nat := some 0
  sort_by : Option String := none
  sort_asc : Bool := true
  min_score : Option ℚ := some (1/10)
  return_fields : Option (List String) := none
  summarize : Bool := false
  highlight : Bool := false
  fuzzy_distance : Option Nat := some 2

/-- The query-construction phase of `SearchIndex::advanced_search`
(`src/tools/search.rs`, lines 311–327): text clause on `content` when
the query is non-empty (fuzzy iff a fuzzy distance is set), then one
tag clause per filter pair, then one numeric-range clause per triple,
then `build`. -/
def buildQuery (params : SearchParams) : String :=
  let fuzzy := params.fuzzy_distance.isSome
  let qb := QueryBuilder.new
  let qb := if params.query.isEmpty then qb
            else qb.text_match "content" params.query fuzzy
  let qb := params.filters.foldl (fun b p => b.tag_filter p.1 p.2) qb
  let qb := params.numeric_filters.foldl
      (fun b p => b.numeric_range p.1 p.2.1 p.2.2) qb
  qb.build

/-- The tag clause string for one `(field, value)` pair. -/
def tagClause (p : String × String) : String :=
  "@" ++ p.1 ++ ":\x7b" ++ p.2 ++ "\x7d"

/-- The numeric-range clause string for one `(field, min, max)` triple. -/
def numClause (p : String × ℚ × ℚ) : String :=
  "@" ++ p.1 ++ ":[" ++ QueryBuilder.fmtNum p.2.1 ++ " " ++
    QueryBuilder.fmtNum p.2.2 ++ "]"

/-- The text clause on `content` for a query string. -/
def textClause (q : String) (fuzzy : Bool) : String :=
  if fuzzy then "@content:%" ++ q ++ "%" else "@content:" ++ q


/-! ### Response cache (`src/cache.rs`, lines 1–102)

`Instant` is modelled as a `Nat` tick count passed explicitly to `get`
and `set`.  The underlying `lru::LruCache` is modelled as a binding
list in most-recently-used-first order bounded by `cap` (the crate
takes a `NonZeroUsize` capacity, so every constructed cache has
`1 ≤ cap`). -/

/-- `CacheEntry { value, expires_at }` (`src/cache.rs`, lines 45–48). -/
structure CacheEntry where
  value : Json
  expires_at : Nat

/-- Model of `lru::LruCache<String, CacheEntry>`. -/
structure LruCache where
  items : List (String × CacheEntry)
  cap : Nat

namespace LruCache

/-- `LruCache::get`: returns the binding for `k` and promotes it to
most recently used. -/
def getE (c : LruCache) (k : String) : Option CacheEntry × LruCache :=
  match c.items.find? (fun p => p.1 == k) with
  | some p => (some p.2, ⟨(k, p.2) :: c.items.filter (fun q => q.1 != k), c.cap⟩)
  | none => (none, c)

/-- `LruCache::put`: an existing key is overwritten, promoted and its
old entry returned; a fresh key is inserted at the front, silently
dropping the least-recently-used binding when over capacity, and
`none` is returned. -/
def put (c : LruCache) (k : String) (e : CacheEntry) :
    Option CacheEntry × LruCache :=
  match c.items.find? (fun p => p.1 == k) with
  | some p =>
      (some p.2, ⟨(k, e) :: c.items.filter (fun q => q.1 != k), c.cap⟩)
  | none =>
      let pushed := (k, e) :: c.items
      (none, ⟨if c.cap < pushed.length then pushed.dropLast else pushed, c.cap⟩)

/-- `LruCache::pop`: removes and returns the binding for `k`. -/
def pop (c : LruCache) (k : String) : Option CacheEntry × LruCache :=
  match c.items.find? (fun p => p.1 == k) with
  | some p => (some p.2, ⟨c.items.filter (fun q => q.1 != k), c.cap⟩)
  | none => (none, c)

/-- The keys currently cached, most recently used first. -/
def keys (c : LruCache) : List String := c.items.map Prod.fst

end LruCache

/-- `CacheMetrics` (`src/cache.rs`, lines 8–43): hit/miss/eviction
counters (the atomics are modelled as plain naturals since every
access in `cache.rs` happens under the cache's exclusive lock). -/
structure CacheMetrics where
  hits : Nat := 0
  misses : Nat := 0
  evictions : Nat := 0
  deriving DecidableEq, Repr

/-- `ResponseCache` (`src/cache.rs`, lines 50–54). -/
structure ResponseCache where
  cache : LruCache
  ttl : Nat
  metrics : CacheMetrics

namespace ResponseCache

/-- `ResponseCache::get` (`src/cache.rs`, lines 65–85): one atomic
read-modify step; fresh hit returns a clone and records a hit, an
expired hit pops the entry and records an eviction and a miss, absence
records a miss. -/
def get (rc : ResponseCache) (k : String) (now : Nat) :
    Option Json × ResponseCache :=
  let r := rc.cache.getE k
  match r.1 with
  | some entry =>
      if now < entry.expires_at then
        (some entry.value,
         { rc with cache := r.2,
                   metrics := { rc.metrics with hits := rc.metrics.hits + 1 } })
      else
        (none,
         { rc with cache := (r.2.pop k).2,
                   metrics := { rc.metrics with
                                  evictions := rc.metrics.evictions + 1,
                                  misses := rc.metrics.misses + 1 } })
  | none =>
      (none,
       { rc with metrics := { rc.metrics with misses := rc.metrics.misses + 1 } })

/-- `ResponseCache::set` (`src/cache.rs`, lines 87–97): always writes a
fresh entry expiring at `now + ttl`; records an eviction exactly when
`LruCache::put` returned an old entry. -/
def set (rc : ResponseCache) (k : String) (v : Json) (now : Nat) :
    ResponseCache :=
  let r := rc.cache.put k ⟨v, now + rc.ttl⟩
  { rc with cache := r.2,
            metrics :=
              if r.1.isSome
              then { rc.metrics with evictions := rc.metrics.evictions + 1 }
              else rc.metrics }

end ResponseCache

/-! ### Connection pool acquisition (`src/utils.rs`, lines 47–79)

`RedisManager::get_connection` is a loop whose environment is modelled
as the list of attempt outcomes the pool and the `PING` liveness check
produce: `poolErr` (the pool's `get` fails), `pingFail` (a connection
is handed out but `PING` fails on it), `pingOk` (a live connection).
`retries` starts at 3 and is a signed integer in the source (it is
decremented without a lower bound); the backoff starts at 100ms and
doubles after every attempt.  The loop only ever returns inside the
source's two `return` expressions, so a run that exhausts its outcome
list without returning is still looping (`pending`). -/

/-- One outcome of `self.pool.get().await` plus the `PING` check. -/
inductive PoolAttempt where
  | poolErr
  | pingFail
  | pingOk
  deriving DecidableEq, Repr

/-- The `redis.connection.success` / `redis.connection.failures`
counters. -/
structure ConnMetrics where
  success : Nat := 0
  failures : Nat := 0
  deriving DecidableEq, Repr

/-- Result of running `get_connection` against a finite prefix of the
attempt-outcome stream: a returned connection (with final counters and
the sleeps performed, in ms), a returned error, or still looping. -/
inductive ConnOutcome where
  | ok (m : ConnMetrics) (sleeps : List Nat)
  | err (m : ConnMetrics) (sleeps : List Nat)
  | pending
  deriving DecidableEq, Repr

/-- The `loop` body of `RedisManager::get_connection`
(`src/utils.rs`, lines 52–78), one recursive step per iteration.
On `poolErr` the failure counter is bumped and `retries == 0` returns
the error; on `pingFail` the failure counter is bumped with **no**
exhaustion check; on `pingOk` the success counter is bumped and the
connection returned.  Fall-through decrements `retries`, sleeps
`backoff` and doubles it. -/
def getConnLoop : List PoolAttempt → Int → Nat → ConnMetrics → List Nat →
    ConnOutcome
  | [], _, _, _, _ => .pending
  | a :: rest, retries, backoff, m, sleeps =>
      match a with
      | .pingOk => .ok { m with success := m.success + 1 } sleeps
      | .pingFail =>
          getConnLoop rest (retries - 1) (backoff * 2)
            { m with failures := m.failures + 1 } (sleeps ++ [backoff])
      | .poolErr =>
          let m1 : ConnMetrics := { m with failures := m.failures + 1 }
          if retries == 0 then .err m1 sleeps
          else getConnLoop rest (retries - 1) (backoff * 2) m1
            (sleeps ++ [backoff])

/-- `RedisManager::get_connection`: `retries = 3`, `backoff = 100ms`. -/
def get_connection (attempts : List PoolAttempt) : ConnOutcome :=
  getConnLoop attempts 3 100 {} []

/-! ### Batch collection and the outer dispatch loop
(`src/server.rs`, lines 38–179)

The input stream is modelled as the list of its remaining lines (each
without its trailing newline); reaching `[]` is end-of-stream.  The
batch timeout is a real-time race; the runs modelled here are the ones
in which input is available before the timeout fires, which the claim
quantifies over ("for every input stream that has not reached
end-of-stream").  `read_line` appends to `line_buffer` including the
newline; the oversized-line arm `continue`s without clearing it, which
the model reproduces. -/

def MAX_BATCH_SIZE : Nat := 100

def MAX_REQUEST_SIZE : Nat := 10 * 1024 * 1024

/-- Whitespace as Rust's `char::is_whitespace` sees it, restricted to
the ASCII whitespace the newline-delimited protocol can contain. -/
def isWsChar (c : Char) : Bool :=
  c = ' ' || c = '\n' || c = '\t' || c = '\r'

/-- Model of Rust `str::trim`: strips leading and trailing whitespace. -/
def trimStr (s : String) : String :=
  ⟨((s.data.dropWhile isWsChar).reverse.dropWhile isWsChar).reverse⟩

/-- The inner batch-collection loop (`src/server.rs`, lines 58–95):
stops on a full batch or end-of-stream, skips oversized reads, trims
lines and drops empty ones.  Returns the collected batch and the
unread remainder of the input. -/
def collectBatch : List String → List String → String →
    List String × List String
  | [], batch, _ => (batch, [])
  | line :: rest, batch, buf =>
      if MAX_BATCH_SIZE ≤ batch.length then (batch, line :: rest)
      else
        let buf1 := buf ++ line ++ "\n"
        if MAX_REQUEST_SIZE < line.utf8ByteSize + 1 then
          collectBatch rest batch buf1
        else
          let t := trimStr buf1
          if t.isEmpty then collectBatch rest batch ""
          else collectBatch rest (batch ++ [t]) ""

/-- Result of the outer dispatch loop: the batches it processed and
the input it left unread, or fuel exhaustion. -/
inductive RunResult where
  | done (batches : List (List String)) (leftover : List String)
  | fuelOut
  deriving Repr

/-- The outer loop of `MCPServer::run` (`src/server.rs`, lines 53–176):
collect a batch; when non-empty, process it (which `drain`s
`batch_buffer`); then line 173 breaks when `batch_buffer` is empty.
The recursive arm is the continuation the loop would take if the
emptiness check ever failed. -/
def runLoop : Nat → List String → List String → RunResult
  | 0, _, _ => .fuelOut
  | fuel + 1, input, batch =>
      let r := collectBatch input batch ""
      let emitted := if r.1.isEmpty then [] else [r.1]
      let batchAfter := if r.1.isEmpty then r.1 else []
      if batchAfter.isEmpty then .done emitted r.2
      else
        match runLoop fuel r.2 batchAfter with
        | .done bs leftover => .done (emitted ++ bs) leftover
        | .fuelOut => .fuelOut

/-! ### Output buffering and flushing
(`src/cache.rs`, lines 104–140 and `src/server.rs`, lines 149–169) -/

/-- `ResponseBuffer` (`src/cache.rs`, lines 105–109). -/
structure ResponseBuffer where
  buffer : List String
  max_size : Nat
  current_size : Nat
  deriving DecidableEq, Repr

namespace ResponseBuffer

/-- `ResponseBuffer::new(max_size)`. -/
def new (max_size : Nat) : ResponseBuffer := ⟨[], max_size, 0⟩

/-- `ResponseBuffer::add` (`src/cache.rs`, lines 120–129): rejects a
response that would push the byte total over `max_size`, otherwise
appends it. -/
def add (b : ResponseBuffer) (response : String) : Bool × ResponseBuffer :=
  let n := response.utf8ByteSize
  if b.max_size < b.current_size + n then (false, b)
  else (true, ⟨b.buffer ++ [response], b.max_size, b.current_size + n⟩)

/-- `ResponseBuffer::should_flush` (`src/cache.rs`, lines 131–133). -/
def should_flush (b : ResponseBuffer) : Bool :=
  b.max_size / 2 ≤ b.current_size || 50 ≤ b.buffer.length

/-- `ResponseBuffer::take_buffer` (`src/cache.rs`, lines 135–139). -/
def take_buffer (b : ResponseBuffer) : List String × ResponseBuffer :=
  (b.buffer, ⟨[], b.max_size, 0⟩)

end ResponseBuffer

/-- One physical write of a flushed batch: gzip-compressed as a single
stream, or uncompressed line-delimited. -/
inductive Flush where
  | plain (xs : List String)
  | compressed (xs : List String)
  deriving DecidableEq, Repr

/-- The responses a flush writes. -/
def Flush.items : Flush → List String
  | .plain xs => xs
  | .compressed xs => xs

/-- The flush loop over one batch's serialized responses
(`src/server.rs`, lines 149–169): add each response; when the add is
rejected or the flush threshold is reached, take the buffer and write
it, compressed iff more than 100 items are buffered. -/
def flushLoop : List String → ResponseBuffer → List Flush × ResponseBuffer
  | [], b => ([], b)
  | response :: rest, b =>
      let r := b.add response
      if !r.1 || r.2.should_flush then
        let t := r.2.take_buffer
        let f := if 100 < t.1.length then Flush.compressed t.1
                 else Flush.plain t.1
        let k := flushLoop rest t.2
        (f :: k.1, k.2)
      else flushLoop rest r.2

/-! ### Serialization of responses

A model of `serde_json::to_string` on the envelope values the
dispatcher emits.  (The model renders object keys in insertion order;
nothing proved below depends on the byte-level key order.)
Serialization of an in-memory `Value` cannot fail, so the
serialize-error fallback arm of `src/server.rs`, lines 117–127 is
unreachable and has no model counterpart. -/

/-- JSON string escaping for the characters the dispatcher's envelopes
contain. -/
def escapeChar (c : Char) : String :=
  if c = '"' then "\\\"" else if c = '\\' then "\\\\"
  else if c = '\n' then "\\n" else if c = '\t' then "\\t"
  else if c = '\r' then "\\r" else String.singleton c

/-- A JSON string literal. -/
def renderStr (s : String) : String :=
  "\"" ++ String.join (s.data.map escapeChar) ++ "\""

/-- Decimal rendering of a JSON number; exact on the integers the
dispatcher's envelopes carry. -/
def fmtQ (q : ℚ) : String := if q.den == 1 then toString q.num else toString q

mutual

/-- Model of `serde_json::to_string` on a `Value`. -/
def Json.render : Json → String
  | .null => "null"
  | .bool true => "true"
  | .bool false => "false"
  | .num q => fmtQ q
  | .str s => renderStr s
  | .arr xs => "[" ++ renderArr xs ++ "]"
  | .obj kvs => "\x7b" ++ renderObj kvs ++ "\x7d"

/-- Comma-joined array elements. -/
def renderArr : List Json → String
  | [] => ""
  | [x] => Json.render x
  | x :: y :: rest => Json.render x ++ "," ++ renderArr (y :: rest)

/-- Comma-joined `"key":value` members. -/
def renderObj : List (String × Json) → String
  | [] => ""
  | [(k, v)] => renderStr k ++ ":" ++ Json.render v
  | (k, v) :: p :: rest =>
      renderStr k ++ ":" ++ Json.render v ++ "," ++ renderObj (p :: rest)

end

/-! ### Parallel batch processing with ordered collection
(`src/server.rs`, lines 97–146)

One task is spawned per request; each task's value is determined by
the request it processes (`server.handle_request(request)`), modelled
by a function `proc` from the request line to the task's result.  The
scheduler's choice of completion order is a permutation `σ` of the
slot indices: tasks finish in the order `σ`, producing a completion
log.  `handle.await` retrieves a task's own result regardless of when
it completed, and the collection loop awaits the handles in submission
order. -/

/-- What `handle.await` yields for one slot: the task ran to
completion with `Some`/`None`, or failed with a join error. -/
inductive TaskResult where
  | ok (response : Option Json)
  | joinErr (msg : String)

/-- Serialization of one slot's response (`src/server.rs`,
lines 112–146): a present response is serialized; a `None` response
becomes `{"jsonrpc":"2.0","result":null}`; a failed task becomes a
`-32603` internal error mentioning the join error. -/
def slotResponse : TaskResult → String
  | .ok (some response) => response.render
  | .ok none => (Json.obj [("jsonrpc", .str "2.0"), ("result", .null)]).render
  | .joinErr e =>
      (Json.obj [("jsonrpc", .str "2.0"),
        ("error", .obj [("code", .num (-32603)),
          ("message", .str ("Internal error: " ++ e))])]).render

/-- The completion log: tasks finish in schedule order `σ`, each
carrying its slot index and its own result. -/
def completionLog (proc : String → TaskResult) (requests : List String)
    (σ : List Nat) : List (Nat × TaskResult) :=
  σ.map (fun i => (i, proc (requests.getD i "")))

/-- `handles[i].await`: slot `i`'s result, read from the completion
log wherever it landed. -/
def awaitSlot (log : List (Nat × TaskResult)) (i : Nat) : TaskResult :=
  ((log.find? (fun p => p.1 == i)).map Prod.snd).getD (.joinErr "pending")

/-- The ordered-collection loop: await the handles in submission
order 0..N-1 and serialize each slot. -/
def runBatch (proc : String → TaskResult) (requests : List String)
    (σ : List Nat) : List String :=
  (List.range requests.length).map
    (fun i => slotResponse (awaitSlot (completionLog proc requests σ) i))

/-! ### Request dispatch (`src/server.rs`, lines 181–477)

`handleRequestParsed` embeds `handle_request` from the point where the
cache has missed and the line has parsed to a JSON value
(`src/server.rs`, lines 215–230), together with `handle_tools_call`
(lines 402–466).  The nine tool implementations are external
collaborators (Redis, HTTP); their execution is the parameter
`toolExec`, invoked with the tool's name and arguments exactly where
the Rust `match` arms call into `crate::tools`.  (The success arm's
`response_cache.set(cache_key, …)` at line 454 references a variable
`cache_key` that is not in scope in `handle_tools_call` and has no
model counterpart.)  The `tools/list` catalog's per-tool input schemas
are abbreviated to their names; no claim depends on the schema
bodies. -/

/-- `MCPServer::error_response` (`src/server.rs`, lines 468–477); an
absent id serializes as `null`. -/
def errorResponse (id : Option Json) (code : Int) (message : String) : Json :=
  .obj [("jsonrpc", .str "2.0"), ("id", id.getD .null),
        ("error", .obj [("code", .num code), ("message", .str message)])]

/-- `ToolCall` (`src/schemas.rs`, lines 25–29). -/
structure ToolCall where
  name : String
  arguments : Json

/-- serde deserialization of `ToolCall` from a `Value`: an object with
a string `name` and a present `arguments` of any shape. -/
def parseToolCall : Json → Option ToolCall
  | .obj kvs =>
      match (kvs.find? (fun p => p.1 == "name")).map Prod.snd with
      | some (.str n) =>
          match (kvs.find? (fun p => p.1 == "arguments")).map Prod.snd with
          | some a => some ⟨n, a⟩
          | _ => none
      | _ => none
  | _ => none

/-- The static catalog: the nine names of the `tools/call` match arms
(`src/server.rs`, lines 411–438), which coincide with the names listed
by `tools/list`. -/
def knownTools : List String :=
  ["scan_trello_tasks", "take_trello_task", "update_trello_task",
   "store_knowledge", "search_knowledge", "learn_from_agents",
   "heartbeat", "check_agent_status", "execute_rag_query"]

/-- `MCPServer::handle_tools_call` (`src/server.rs`, lines 402–466):
parse the `ToolCall`, dispatch a known name to its tool (modelled by
`toolExec`), wrap success in a `result.content` envelope and failure
in an `isError` tool result; an unknown name is `-32601`, unparsable
params are `-32602`. -/
def handleToolsCall (toolExec : String → Json → Except String String)
    (id : Option Json) (params : Json) : Json :=
  match parseToolCall params with
  | none => errorResponse id (-32602) "Invalid params"
  | some tc =>
      if tc.name ∈ knownTools then
        match toolExec tc.name tc.arguments with
        | .ok content =>
            .obj [("jsonrpc", .str "2.0"), ("id", id.getD .null),
              ("result", .obj [("content",
                .arr [.obj [("type", .str "text"), ("text", .str content)]])])]
        | .error e =>
            .obj [("jsonrpc", .str "2.0"), ("id", id.getD .null),
              ("result", .obj [("isError", .bool true),
                ("content", .arr [.obj [("type", .str "text"),
                  ("text", .str ("Error: " ++ e))]])])]
      else errorResponse id (-32601) "Unknown tool"

/-- `MCPServer::handle_initialize` (`src/server.rs`, lines 233–248). -/
def initializeResponse (id : Option Json) : Json :=
  .obj [("jsonrpc", .str "2.0"), ("id", id.getD .null),
    ("result", .obj
      [("protocolVersion", .str "2024-11-05"),
       ("capabilities", .obj [("tools", .obj [])]),
       ("serverInfo", .obj [("name", .str "warp-tasks-mcp"),
                            ("version", .str "1.0.0")])])]

/-- `MCPServer::handle_tools_list` (`src/server.rs`, lines 250–400),
with each tool's schema abbreviated to its name. -/
def toolsListResponse (id : Option Json) : Json :=
  .obj [("jsonrpc", .str "2.0"), ("id", id.getD .null),
    ("result", .obj [("tools",
      .arr (knownTools.map (fun n => .obj [("name", .str n)])))])]

/-- The post-parse body of `MCPServer::handle_request`
(`src/server.rs`, lines 215–230): extract `id`, require a string
`method`, default missing `params` to `Null`, and route. -/
def handleRequestParsed (toolExec : String → Json → Except String String)
    (req : Json) : Json :=
  let id := req.getKey? "id"
  match (req.getKey? "method").bind Json.asStr? with
  | none => errorResponse id (-32600) "Invalid Request"
  | some m =>
      let params := (req.getKey? "params").getD .null
      if m = "initialize" then initializeResponse id
      else if m = "tools/list" then toolsListResponse id
      else if m = "tools/call" then handleToolsCall toolExec id params
      else errorResponse id (-32601) "Method not found"

/-! ### A model of `serde_json::from_str::<Value>`

A recursive-descent parser over the character list, with fuel for the
mutual value/array/object recursion.  `2 * length + 2` fuel suffices:
every recursive call either consumes input or moves from a consuming
production to its sub-production.  (Surrogate-pair decoding of
`\uXXXX` escapes is out of scope; the reply decoder's inputs contain
none.) -/

/-- Skip JSON whitespace. -/
def skipWs : List Char → List Char
  | [] => []
  | c :: rest =>
      if c = ' ' || c = '\n' || c = '\t' || c = '\r' then skipWs rest
      else c :: rest

/-- A decimal digit's value. -/
def digitVal? (c : Char) : Option Nat :=
  if '0' ≤ c ∧ c ≤ '9' then some (c.toNat - '0'.toNat) else none

/-- A hexadecimal digit's value. -/
def hexVal? (c : Char) : Option Nat :=
  if '0' ≤ c ∧ c ≤ '9' then some (c.toNat - '0'.toNat)
  else if 'a' ≤ c ∧ c ≤ 'f' then some (c.toNat - 'a'.toNat + 10)
  else if 'A' ≤ c ∧ c ≤ 'F' then some (c.toNat - 'A'.toNat + 10)
  else none

/-- The longest digit prefix and the remainder. -/
def takeDigits : List Char → List Nat × List Char
  | [] => ([], [])
  | c :: rest =>
      match digitVal? c with
      | some d => let r := takeDigits rest; (d :: r.1, r.2)
      | none => ([], c :: rest)

/-- Digits to a natural number, most significant first. -/
def digitsToNat (ds : List Nat) : Nat := ds.foldl (fun a d => a * 10 + d) 0

/-- An optional `e`/`E` exponent; absent means exponent 0. -/
def parseExponent : List Char → Option (Int × List Char)
  | [] => some (0, [])
  | c :: rest =>
      if c = 'e' || c = 'E' then
        let p := match rest with
          | '+' :: r => ((1 : Int), r)
          | '-' :: r => ((-1 : Int), r)
          | r => ((1 : Int), r)
        let d := takeDigits p.2
        if d.1.isEmpty then none else some (p.1 * digitsToNat d.1, d.2)
      else some (0, c :: rest)

/-- The exact rational `±ipart.fpart × 10^ex`. -/
def sciToRat (neg : Bool) (ipart fpart : List Nat) (ex : Int) : ℚ :=
  let mant : Int :=
    ((digitsToNat ipart * 10 ^ fpart.length + digitsToNat fpart : Nat) : Int)
  let mant : Int := if neg then -mant else mant
  let e : Int := ex - fpart.length
  if 0 ≤ e then mkRat (mant * (10 : Int) ^ e.toNat) 1
  else mkRat mant ((10 : Nat) ^ (-e).toNat)

/-- A JSON number: optional minus, integer part without leading
zeros, optional fraction, optional exponent. -/
def parseNumber (cs : List Char) : Option (ℚ × List Char) :=
  let s := match cs with
    | '-' :: r => (true, r)
    | _ => (false, cs)
  let d := takeDigits s.2
  if d.1.isEmpty then none
  else if 1 < d.1.length ∧ d.1.headI = 0 then none
  else
    match d.2 with
    | '.' :: r =>
        let f := takeDigits r
        if f.1.isEmpty then none
        else
          (parseExponent f.2).map (fun p => (sciToRat s.1 d.1 f.1 p.1, p.2))
    | rest2 =>
        (parseExponent rest2).map (fun p => (sciToRat s.1 d.1 [] p.1, p.2))

/-- A single-character string escape. -/
def escChar? (c : Char) : Option Char :=
  if c = '"' then some '"' else if c = '\\' then some '\\'
  else if c = '/' then some '/' else if c = 'n' then some '\n'
  else if c = 't' then some '\t' else if c = 'r' then some '\r'
  else if c = 'b' then some (Char.ofNat 8)
  else if c = 'f' then some (Char.ofNat 12)
  else none

/-- The body of a string literal after the opening quote, up to and
consuming the closing quote. -/
def parseStrBody : Nat → List Char → Option (List Char × List Char)
  | 0, _ => none
  | _ + 1, [] => none
  | fuel + 1, c :: rest =>
      if c = '"' then some ([], rest)
      else if c = '\\' then
        match rest with
        | [] => none
        | e :: rest1 =>
            if e = 'u' then
              match rest1 with
              | h1 :: h2 :: h3 :: h4 :: rest2 =>
                  match hexVal? h1, hexVal? h2, hexVal? h3, hexVal? h4 with
                  | some a, some b, some c2, some d =>
                      (parseStrBody fuel rest2).map (fun r =>
                        (Char.ofNat (((a * 16 + b) * 16 + c2) * 16 + d) :: r.1,
                         r.2))
                  | _, _, _, _ => none
              | _ => none
            else
              match escChar? e with
              | some ch =>
                  (parseStrBody fuel rest1).map (fun r => (ch :: r.1, r.2))
              | none => none
      else (parseStrBody fuel rest).map (fun r => (c :: r.1, r.2))

mutual

/-- One JSON value, leading whitespace allowed. -/
def parseVal : Nat → List Char → Option (Json × List Char)
  | 0, _ => none
  | fuel + 1, cs =>
      match skipWs cs with
      | [] => none
      | c :: rest =>
          if c = 'n' then
            if rest.take 3 = ['u', 'l', 'l'] then some (.null, rest.drop 3)
            else none
          else if c = 't' then
            if rest.take 3 = ['r', 'u', 'e'] then some (.bool true, rest.drop 3)
            else none
          else if c = 'f' then
            if rest.take 4 = ['a', 'l', 's', 'e'] then
              some (.bool false, rest.drop 4)
            else none
          else if c = '"' then
            (parseStrBody fuel rest).map (fun r => (.str ⟨r.1⟩, r.2))
          else if c = '[' then
            match skipWs rest with
            | ']' :: rest1 => some (.arr [], rest1)
            | rest1 => (parseItems fuel rest1).map (fun r => (.arr r.1, r.2))
          else if c = '\x7b' then
            match skipWs rest with
            | '\x7d' :: rest1 => some (.obj [], rest1)
            | rest1 => (parseMembers fuel rest1).map (fun r => (.obj r.1, r.2))
          else
            (parseNumber (c :: rest)).map (fun r => (.num r.1, r.2))

/-- Comma-separated array items up to the closing bracket. -/
def parseItems : Nat → List Char → Option (List Json × List Char)
  | 0, _ => none
  | fuel + 1, cs =>
      (parseVal fuel cs).bind (fun r =>
        match skipWs r.2 with
        | ',' :: rest => (parseItems fuel rest).map (fun r2 => (r.1 :: r2.1, r2.2))
        | ']' :: rest => some ([r.1], rest)
        | _ => none)

/-- Comma-separated `"key": value` members up to the closing brace. -/
def parseMembers : Nat → List Char → Option (List (String × Json) × List Char)
  | 0, _ => none
  | fuel + 1, cs =>
      match skipWs cs with
      | '"' :: rest =>
          (parseStrBody fuel rest).bind (fun rk =>
            match skipWs rk.2 with
            | ':' :: rest2 =>
                (parseVal fuel rest2).bind (fun rv =>
                  match skipWs rv.2 with
                  | ',' :: rest3 =>
                      (parseMembers fuel rest3).map (fun rm =>
                        ((⟨rk.1⟩, rv.1) :: rm.1, rm.2))
                  | '\x7d' :: rest3 => some ([(⟨rk.1⟩, rv.1)], rest3)
                  | _ => none)
            | _ => none)
      | _ => none

end

/-- Model of `serde_json::from_str::<Value>`: one value, then at most
trailing whitespace. -/
def fromStr (s : String) : Option Json :=
  match parseVal (2 * s.length + 2) s.data with
  | some (j, rest) => if (skipWs rest).isEmpty then some j else none
  | none => none

/-! ### Search-reply decoding (`src/tools/search.rs`, lines 363–434)

`redis::Value` is modelled by `RVal`, with `Data` byte strings carried
as `String` (the code reads them through `String::from_utf8_lossy`).
The `while index < raw_results.len()` loop advances `index` by 3 at
the bottom of its body; the malformed-key arm `_ => continue`
(line 385) skips that increment, so the loop is given explicit fuel
and an outcome that separates normal completion, a Rust panic (the
`value.as_object().unwrap()` at line 413), and running out of fuel. -/

/-- Model of `redis::Value`. -/
inductive RVal where
  | nil
  | int (i : Int)
  | data (s : String)
  | bulk (xs : List RVal)
  | status (s : String)
  | okay

/-- `String::from_utf8_lossy` over an element expected to be a byte
string.  A non-`Data` element has no byte view — the corresponding
guard arms at lines 382–384 and 391–393 index a `Vec<redis::Value>`
as if it held byte slices — and is read as the empty string; no claim
exercises those arms. -/
def RVal.lossy : RVal → String
  | .data s => s
  | _ => ""

/-- Model of `str::parse::<f64>` as used on score strings; exact on
the decimal forms the search engine emits (`unwrap_or(0.0)` is applied
by the caller). -/
def parseScore (s : String) : Option ℚ :=
  match parseNumber s.data with
  | some (q, rest) => if rest.isEmpty then some q else none
  | none => none

/-- The document key read at `index` (`src/tools/search.rs`,
lines 380–386); `none` is the `_ => continue` arm. -/
def keyAt (raw : List RVal) (index : Nat) : Option String :=
  match raw.get? index with
  | some (.data k) => some k
  | some (.bulk (b0 :: _)) => some b0.lossy
  | _ => none

/-- The score read at `index + 1` (`src/tools/search.rs`,
lines 389–395). -/
def scoreAt (raw : List RVal) (index : Nat) : ℚ :=
  match raw.get? (index + 1) with
  | some (.data s) => (parseScore s).getD 0
  | some (.bulk b) =>
      if 1 < b.length then (parseScore (b.getD 1 .nil).lossy).getD 0 else 0
  | _ => 0

/-- `fields.chunks(2)`. -/
def chunks2 : List RVal → List (List RVal)
  | [] => []
  | [x] => [[x]]
  | x :: y :: rest => [x, y] :: chunks2 rest

/-- One field-list chunk applied to the document under construction
(`src/tools/search.rs`, lines 404–423).  `none` is the panic of
`value.as_object().unwrap()` when the `$` whole-document value parses
to a non-object. -/
def applyChunk (doc : Json) (chunk : List RVal) : Option Json :=
  match chunk with
  | [.data k, .data v] =>
      if k = "$" then
        match fromStr v with
        | some (.obj kvs) => some (doc.extendObj kvs)
        | some _ => none
        | none => some doc
      else some (doc.setKey k ((fromStr v).getD (.str v)))
  | _ => some doc

/-- Fold the chunks, propagating a panic. -/
def buildDoc (doc : Json) : List (List RVal) → Option Json
  | [] => some doc
  | ch :: rest =>
      match applyChunk doc ch with
      | some doc1 => buildDoc doc1 rest
      | none => none

/-- Outcome of the decode loop. -/
inductive DecodeOutcome where
  | ok (entries : List Json)
  | panicked
  | outOfFuel

/-- The decode loop (`src/tools/search.rs`, lines 375–428), one fuel
unit per iteration of `while index < raw_results.len()`.  A malformed
key slot `continue`s without advancing `index`; a well-formed group
seeds `{_key, _score}`, folds the field chunks, pushes the document
and advances by 3; a group whose third element is not a `Bulk` pushes
nothing and advances by 3. -/
def decodeLoop : Nat → List RVal → Nat → List Json → DecodeOutcome
  | 0, _, _, _ => .outOfFuel
  | fuel + 1, raw, index, entries =>
      if index < raw.length then
        match keyAt raw index with
        | none => decodeLoop fuel raw index entries
        | some key =>
            match raw.get? (index + 2) with
            | some (.bulk fields) =>
                match buildDoc
                    (.obj [("_key", .str key), ("_score", .num (scoreAt raw index))])
                    (chunks2 fields) with
                | some doc => decodeLoop fuel raw (index + 3) (entries ++ [doc])
                | none => .panicked
            | _ => decodeLoop fuel raw (index + 3) entries
      else .ok entries

/-- Outcome of the whole reply decode. -/
inductive SearchOutcome where
  | ok (result : Json)
  | panicked
  | outOfFuel

/-- The reply-decoding tail of `SearchIndex::advanced_search`
(`src/tools/search.rs`, lines 370–433): the total is element 0 when it
is an integer (cast `as usize`, i.e. mod 2^64), else 0; the records
are decoded starting at index 1; the result is
`{"total": …, "results": […]}`. -/
def decodeReply (fuel : Nat) (raw : List RVal) : SearchOutcome :=
  let total : Nat :=
    match raw.head? with
    | some (.int c) => (c % (2 ^ 64 : Int)).toNat
    | _ => 0
  match decodeLoop fuel raw 1 [] with
  | .ok entries =>
      .ok (.obj [("total", .num total), ("results", .arr entries)])
  | .panicked => .panicked
  | .outOfFuel => .outOfFuel

/-! ## Theorems

The remainder of the file contains only lemmas, the claim theorems and
their witnesses. -/

lemma tag_fold_parts (ps : List (String × String)) (b : QueryBuilder) :
    (ps.foldl (fun b p => b.tag_filter p.1 p.2) b).parts =
      b.parts ++ ps.map tagClause := by
  induction ps generalizing b with
  | nil => simp
  | cons p ps ih =>
      simp only [List.foldl_cons, ih, List.map_cons]
      simp [QueryBuilder.tag_filter, tagClause]

lemma num_fold_parts (ps : List (String × ℚ × ℚ)) (b : QueryBuilder) :
    (ps.foldl (fun b p => b.numeric_range p.1 p.2.1 p.2.2) b).parts =
      b.parts ++ ps.map numClause := by
  induction ps generalizing b with
  | nil => simp
  | cons p ps ih =>
      simp only [List.foldl_cons, ih, List.map_cons]
      simp [QueryBuilder.numeric_range, numClause]

/-- **C8.** For every `SearchParams` the built query expression is the
space-joined clause sequence in deterministic order — text clause on
`content` first (fuzzy iff a fuzzy distance is set, and only when the
query string is non-empty), then one tag clause per filter pair in
caller order, then one numeric-range clause per triple in caller
order — with the match-all wildcard `*` for an empty clause list; and
in particular a fuzzy text query `"foo"` with a `category` tag filter
yields the fuzzy text clause first and the tag clause second, joined
by one space.  (`src/tools/search.rs`, lines 113–149 and 311–327.) -/
theorem C8_query_clause_order :
    (∀ params : SearchParams,
        buildQuery params =
          if ((if params.query.isEmpty then []
               else [textClause params.query params.fuzzy_distance.isSome]) ++
              params.filters.map tagClause ++
              params.numeric_filters.map numClause).isEmpty
          then "*"
          else String.intercalate " "
            ((if params.query.isEmpty then []
              else [textClause params.query params.fuzzy_distance.isSome]) ++
             params.filters.map tagClause ++
             params.numeric_filters.map numClause)) ∧
    buildQuery { query := "foo", filters := [("category", "x")],
                 numeric_filters := [] } =
      "@content:%foo% @category:\x7bx\x7d" := by
  constructor
  · intro params
    have hparts :
        (params.numeric_filters.foldl (fun b p => b.numeric_range p.1 p.2.1 p.2.2)
          (params.filters.foldl (fun b p => b.tag_filter p.1 p.2)
            (if params.query.isEmpty then QueryBuilder.new
             else QueryBuilder.new.text_match "content" params.query
               params.fuzzy_distance.isSome))).parts =
          (if params.query.isEmpty then []
           else [textClause params.query params.fuzzy_distance.isSome]) ++
          params.filters.map tagClause ++ params.numeric_filters.map numClause := by
      rw [num_fold_parts, tag_fold_parts]
      by_cases hq : params.query.isEmpty
      · simp [hq, QueryBuilder.new]
      · simp only [hq, Bool.false_eq_true, if_false, List.append_assoc]
        rfl
    unfold buildQuery QueryBuilder.build
    simp only [hparts]
  · rfl
lemma find?_key_filter (l : List (String × CacheEntry)) (k : String) :
    (l.filter (fun q => q.1 != k)).find? (fun p => p.1 == k) = none := by
  induction l with
  | nil => rfl
  | cons a l ih =>
      by_cases h : a.1 = k
      · simp [List.filter_cons, h, ih]
      · simp [List.filter_cons, List.find?_cons, h, ih]

lemma find?_key_none_of_sub {l l' : List (String × CacheEntry)} {k : String}
    (hsub : l' ⊆ l) (h : l.find? (fun p => p.1 == k) = none) :
    l'.find? (fun p => p.1 == k) = none := by
  rw [List.find?_eq_none] at h ⊢
  exact fun x hx => h x (hsub hx)

lemma find?_key_none_iff (l : List (String × CacheEntry)) (k : String) :
    l.find? (fun p => p.1 == k) = none ↔ k ∉ l.map Prod.fst := by
  rw [List.find?_eq_none]
  constructor
  · rintro h hk
    obtain ⟨p, hp, hfst⟩ := List.mem_map.mp hk
    exact h p hp (by simp [hfst])
  · intro h p hp hbeq
    exact h (List.mem_map.mpr ⟨p, hp, by simpa using hbeq⟩)

lemma dropLast_cons_ne {α : Type} (a : α) {l : List α} (h : l ≠ []) :
    (a :: l).dropLast = a :: l.dropLast := by
  cases l with
  | nil => exact absurd rfl h
  | cons b l => rfl

lemma put_fresh_items (c : LruCache) (k : String) (e : CacheEntry)
    (hfind : c.items.find? (fun p => p.1 == k) = none) :
    (c.put k e).2.items =
      if c.cap < c.items.length + 1 then ((k, e) :: c.items).dropLast
      else (k, e) :: c.items := by
  unfold LruCache.put
  rw [hfind]
  rfl

lemma put_overwrite_items (c : LruCache) (k : String) (e : CacheEntry) (p : String × CacheEntry)
    (hfind : c.items.find? (fun q => q.1 == k) = some p) :
    (c.put k e).2.items = (k, e) :: c.items.filter (fun q => q.1 != k) := by
  unfold LruCache.put
  rw [hfind]

/-- After a `set` the written key sits at the front of the LRU order
with the fresh expiry, and no stale binding for it survives. -/
lemma set_items (rc : ResponseCache) (k : String) (v : Json) (t : Nat)
    (hcap : 1 ≤ rc.cache.cap) :
    ∃ rest, (rc.set k v t).cache.items = (k, ⟨v, t + rc.ttl⟩) :: rest ∧
      rest.find? (fun p => p.1 == k) = none := by
  have hset : (rc.set k v t).cache.items = (rc.cache.put k ⟨v, t + rc.ttl⟩).2.items := by
    unfold ResponseCache.set
    cases h : (rc.cache.put k ⟨v, t + rc.ttl⟩).1 <;> rfl
  rw [hset]
  cases hfind : rc.cache.items.find? (fun p => p.1 == k) with
  | some p =>
      rw [put_overwrite_items rc.cache k _ p hfind]
      exact ⟨_, rfl, find?_key_filter _ _⟩
  | none =>
      rw [put_fresh_items rc.cache k _ hfind]
      by_cases hdrop : rc.cache.cap < rc.cache.items.length + 1
      · rw [if_pos hdrop]
        have hne : rc.cache.items ≠ [] := by
          intro hnil
          rw [hnil] at hdrop
          simp at hdrop
          omega
        rw [dropLast_cons_ne _ hne]
        exact ⟨_, rfl,
          find?_key_none_of_sub (List.dropLast_sublist _).subset hfind⟩
      · rw [if_neg hdrop]
        exact ⟨_, rfl, hfind⟩

lemma getE_front (c : LruCache) (k : String) (e : CacheEntry)
    (rest : List (String × CacheEntry)) (h : c.items = (k, e) :: rest) :
    c.getE k = (some e, ⟨(k, e) :: rest.filter (fun q => q.1 != k), c.cap⟩) := by
  unfold LruCache.getE
  rw [h]
  simp [List.find?_cons, List.filter_cons]

lemma pop_front (c : LruCache) (k : String) (e : CacheEntry)
    (rest : List (String × CacheEntry)) (h : c.items = (k, e) :: rest) :
    c.pop k = (some e, ⟨rest.filter (fun q => q.1 != k), c.cap⟩) := by
  unfold LruCache.pop
  rw [h]
  simp [List.find?_cons, List.filter_cons]

lemma getE_absent (c : LruCache) (k : String)
    (h : c.items.find? (fun p => p.1 == k) = none) : c.getE k = (none, c) := by
  unfold LruCache.getE
  rw [h]

lemma set_metrics_fresh (rc : ResponseCache) (k : String) (v : Json) (t : Nat)
    (h : rc.cache.items.find? (fun p => p.1 == k) = none) :
    (rc.set k v t).metrics = rc.metrics := by
  unfold ResponseCache.set LruCache.put
  rw [h]
  rfl

lemma set_metrics_overwrite (rc : ResponseCache) (k : String) (v : Json)
    (t : Nat) (p : String × CacheEntry)
    (h : rc.cache.items.find? (fun q => q.1 == k) = some p) :
    (rc.set k v t).metrics =
      { rc.metrics with evictions := rc.metrics.evictions + 1 } := by
  unfold ResponseCache.set LruCache.put
  rw [h]
  rfl

lemma get_front_fresh (rc : ResponseCache) (k : String) (e : CacheEntry)
    (rest : List (String × CacheEntry)) (now : Nat)
    (hitems : rc.cache.items = (k, e) :: rest) (hnow : now < e.expires_at) :
    rc.get k now =
      (some e.value,
       { rc with
           cache := ⟨(k, e) :: rest.filter (fun q => q.1 != k), rc.cache.cap⟩,
           metrics := { rc.metrics with hits := rc.metrics.hits + 1 } }) := by
  unfold ResponseCache.get
  rw [getE_front rc.cache k e rest hitems]
  simp [hnow]

lemma get_front_expired (rc : ResponseCache) (k : String) (e : CacheEntry)
    (rest : List (String × CacheEntry)) (now : Nat)
    (hitems : rc.cache.items = (k, e) :: rest) (hnow : e.expires_at ≤ now) :
    rc.get k now =
      (none,
       { rc with
           cache := ⟨(rest.filter (fun q => q.1 != k)).filter (fun q => q.1 != k),
                     rc.cache.cap⟩,
           metrics := { rc.metrics with
                          misses := rc.metrics.misses + 1,
                          evictions := rc.metrics.evictions + 1 } }) := by
  unfold ResponseCache.get
  rw [getE_front rc.cache k e rest hitems]
  have hpop := pop_front ⟨(k, e) :: rest.filter (fun q => q.1 != k), rc.cache.cap⟩
    k e (rest.filter (fun q => q.1 != k)) rfl
  simp only [hpop]
  simp [Nat.not_lt.mpr hnow]

lemma get_absent (rc : ResponseCache) (k : String) (now : Nat)
    (h : rc.cache.items.find? (fun p => p.1 == k) = none) :
    rc.get k now =
      (none, { rc with
                 metrics := { rc.metrics with misses := rc.metrics.misses + 1 } }) := by
  unfold ResponseCache.get
  rw [getE_absent rc.cache k h]

/-- **C3.** A `set(k, v)` at time `t` followed by `get(k)` strictly
before the TTL elapses returns `v` and records exactly one hit; a
`get(k)` once the TTL has elapsed returns nothing, removes the entry,
and records exactly one eviction and one miss; a `get` of an absent
key records exactly one miss.  (`src/cache.rs`, lines 65–97.) -/
theorem C3_ttl_and_metrics (rc : ResponseCache) (k : String) (v : Json)
    (t t1 t2 tm : Nat) (hcap : 1 ≤ rc.cache.cap)
    (hfresh : t1 < t + rc.ttl) (hexp : t + rc.ttl ≤ t2)
    (habs : k ∉ rc.cache.keys) :
    (((rc.set k v t).get k t1).1 = some v ∧
     ((rc.set k v t).get k t1).2.metrics =
       { rc.metrics with hits := rc.metrics.hits + 1 }) ∧
    (((rc.set k v t).get k t2).1 = none ∧
     k ∉ ((rc.set k v t).get k t2).2.cache.keys ∧
     ((rc.set k v t).get k t2).2.metrics =
       { rc.metrics with
           misses := rc.metrics.misses + 1,
           evictions := rc.metrics.evictions + 1 }) ∧
    ((rc.get k tm).1 = none ∧
     (rc.get k tm).2.metrics =
       { rc.metrics with misses := rc.metrics.misses + 1 }) := by
  have hfind0 : rc.cache.items.find? (fun p => p.1 == k) = none :=
    (find?_key_none_iff _ _).mpr habs
  obtain ⟨rest, hri, -⟩ := set_items rc k v t hcap
  have hm1 : (rc.set k v t).metrics = rc.metrics := set_metrics_fresh rc k v t hfind0
  have hfreshget := get_front_fresh (rc.set k v t) k ⟨v, t + rc.ttl⟩ rest t1 hri hfresh
  have hexpget := get_front_expired (rc.set k v t) k ⟨v, t + rc.ttl⟩ rest t2 hri hexp
  have habsget := get_absent rc k tm hfind0
  refine ⟨⟨?_, ?_⟩, ⟨?_, ?_, ?_⟩, ?_, ?_⟩
  · rw [hfreshget]
  · rw [hfreshget]; simp [hm1]
  · rw [hexpget]
  · rw [hexpget]
    simp only [LruCache.keys]
    exact (find?_key_none_iff _ _).mp (find?_key_filter _ _)
  · rw [hexpget]; simp [hm1]
  · rw [habsget]
  · rw [habsget]

/-- Witness for `C3_ttl_and_metrics` at a concrete empty cache with
capacity 1 and TTL 10: set at tick 0, fresh get at tick 9, expired get
at tick 10, absent get at tick 0. -/
theorem C3_ttl_and_metrics_witness :
    (((⟨⟨[], 1⟩, 10, {}⟩ : ResponseCache).set "k" Json.null 0).get "k" 9).1 =
      some Json.null ∧
    (((⟨⟨[], 1⟩, 10, {}⟩ : ResponseCache).set "k" Json.null 0).get "k" 10).1 =
      none ∧
    ((⟨⟨[], 1⟩, 10, {}⟩ : ResponseCache).get "k" 0).1 = none := by
  have h := C3_ttl_and_metrics ⟨⟨[], 1⟩, 10, {}⟩ "k" Json.null 0 9 10 0
    (by decide) (by decide) (by decide) (by decide)
  exact ⟨h.1.1, h.2.1.1, h.2.2.1⟩

/-- **C4 counterexample.** A cache at full capacity (capacity 1,
holding key `"a"`): inserting the distinct key `"b"` does evict the
least-recently-used entry `"a"`, but the eviction counter stays at 0 —
it is not incremented for the forced capacity eviction, because
`LruCache::put` returns `None` for a fresh key (`src/cache.rs`,
lines 94–96). -/
theorem C4_counterexample :
    ((⟨⟨[("a", ⟨Json.null, 100⟩)], 1⟩, 10, {}⟩ : ResponseCache).set
        "b" Json.null 0).cache.keys = ["b"] ∧
    ((⟨⟨[("a", ⟨Json.null, 100⟩)], 1⟩, 10, {}⟩ : ResponseCache).set
        "b" Json.null 0).metrics.evictions = 0 := by
  constructor <;> rfl

/-- **C4 (amended).** At full capacity, `set` of a fresh key evicts the
least-recently-used binding (the last in recency order) but leaves the
eviction counter unchanged; the eviction counter increments by exactly
one precisely when `set` overwrites an already-present key
(`src/cache.rs`, lines 87–97, with `lru::LruCache::put` returning the
old entry only on same-key overwrite). -/
theorem C4_eviction_counter (rc : ResponseCache) (k k2 : String)
    (v v2 : Json) (t t2 : Nat) (hcap : 1 ≤ rc.cache.cap)
    (hfull : rc.cache.items.length = rc.cache.cap)
    (hfresh : k ∉ rc.cache.keys) (hmem : k2 ∈ rc.cache.keys) :
    (rc.set k v t).cache.keys = k :: rc.cache.keys.dropLast ∧
    (rc.set k v t).cache.items.length = rc.cache.cap ∧
    (rc.set k v t).metrics.evictions = rc.metrics.evictions ∧
    (rc.set k2 v2 t2).metrics.evictions = rc.metrics.evictions + 1 := by
  have hfind0 : rc.cache.items.find? (fun p => p.1 == k) = none :=
    (find?_key_none_iff _ _).mpr hfresh
  have hne : rc.cache.items ≠ [] := by
    intro hnil
    rw [hnil] at hfull
    simp at hfull
    omega
  have hdrop : rc.cache.cap < rc.cache.items.length + 1 := by omega
  have hset : (rc.set k v t).cache.items = (rc.cache.put k ⟨v, t + rc.ttl⟩).2.items := by
    unfold ResponseCache.set
    cases h : (rc.cache.put k ⟨v, t + rc.ttl⟩).1 <;> rfl
  have hitems : (rc.set k v t).cache.items =
      (k, ⟨v, t + rc.ttl⟩) :: rc.cache.items.dropLast := by
    rw [hset, put_fresh_items rc.cache k _ hfind0, if_pos hdrop,
        dropLast_cons_ne _ hne]
  refine ⟨?_, ?_, ?_, ?_⟩
  · simp [LruCache.keys, hitems, List.map_dropLast]
  · rw [hitems]
    simp [List.length_dropLast]
    omega
  · rw [set_metrics_fresh rc k v t hfind0]
  · have hsome : ∃ p, rc.cache.items.find? (fun q => q.1 == k2) = some p := by
      cases hf : rc.cache.items.find? (fun q => q.1 == k2) with
      | some p => exact ⟨p, rfl⟩
      | none => exact absurd ((find?_key_none_iff _ _).mp hf) (not_not_intro hmem)
    obtain ⟨p, hp⟩ := hsome
    rw [set_metrics_overwrite rc k2 v2 t2 p hp]

lemma getConnLoop_pingFail_pending (n : Nat) :
    ∀ (r : Int) (b : Nat) (m : ConnMetrics) (s : List Nat),
      getConnLoop (List.replicate n .pingFail) r b m s = .pending := by
  induction n with
  | zero => intro r b m s; rfl
  | succ n ih =>
      intro r b m s
      rw [List.replicate_succ]
      exact ih (r - 1) (b * 2) _ _

/-- **C5.** The pool-error path is bounded — four consecutive pool
failures return an error after sleeps of 100/200/400 ms, and two pool
failures followed by a live connection return it with two failure
increments and one success increment — but the ping-failure path never
checks retry exhaustion: for a connection stream whose `PING` always
fails, `get_connection` never returns for any number of attempts,
contradicting the claimed bounded retry budget.
(`src/utils.rs`, lines 48–79: the `Err(_)` arm of the `PING` match has
no `retries == 0` check, so `retries` is decremented below zero
forever.) -/
theorem C5_get_connection_retries :
    (∀ n : Nat, get_connection (List.replicate n .pingFail) = .pending) ∧
    get_connection [.poolErr, .poolErr, .pingOk] =
      .ok ⟨1, 2⟩ [100, 200] ∧
    (∀ rest : List PoolAttempt,
      get_connection ([.poolErr, .poolErr, .poolErr, .poolErr] ++ rest) =
        .err ⟨0, 4⟩ [100, 200, 400]) := by
  refine ⟨fun n => getConnLoop_pingFail_pending n 3 100 {} [], rfl, fun rest => rfl⟩

/-- Witness for `C4_eviction_counter` at a concrete full cache of
capacity 1 holding `"a"`, inserting fresh `"b"` and overwriting `"a"`. -/
theorem C4_eviction_counter_witness :
    ((⟨⟨[("a", ⟨Json.null, 100⟩)], 1⟩, 10, {}⟩ : ResponseCache).set
        "b" Json.null 0).cache.keys = "b" :: ["a"].dropLast ∧
    ((⟨⟨[("a", ⟨Json.null, 100⟩)], 1⟩, 10, {}⟩ : ResponseCache).set
        "b" Json.null 0).cache.items.length = 1 ∧
    ((⟨⟨[("a", ⟨Json.null, 100⟩)], 1⟩, 10, {}⟩ : ResponseCache).set
        "b" Json.null 0).metrics.evictions = 0 ∧
    ((⟨⟨[("a", ⟨Json.null, 100⟩)], 1⟩, 10, {}⟩ : ResponseCache).set
        "a" Json.null 0).metrics.evictions = 0 + 1 := by
  exact C4_eviction_counter ⟨⟨[("a", ⟨Json.null, 100⟩)], 1⟩, 10, {}⟩ "b" "a"
    Json.null Json.null 0 0 (by decide) (by decide) (by decide) (by decide)

/-- **C1.** The outer dispatch loop always returns after its first
iteration: processing `drain`s `batch_buffer`, so the emptiness check
at `src/server.rs:173` (whose comment says "Break main loop if EOF was
reached") is true after every batch, EOF or not.  Concretely, 101
available input lines end the loop with the 101st line unread —
contradicting the claim that a non-EOF stream keeps collecting the
next batch after a non-empty batch is flushed. -/
theorem C1_outer_loop_exits_after_first_batch :
    (∀ (fuel : Nat) (input : List String),
        runLoop (fuel + 1) input [] =
          .done (if (collectBatch input [] "").1.isEmpty then []
                 else [(collectBatch input [] "").1])
            (collectBatch input [] "").2) ∧
    runLoop 9 (List.replicate 101 "a") [] =
      .done [List.replicate 100 "a"] ["a"] := by
  have hone : ∀ (fuel : Nat) (input : List String),
      runLoop (fuel + 1) input [] =
        .done (if (collectBatch input [] "").1.isEmpty then []
               else [(collectBatch input [] "").1])
          (collectBatch input [] "").2 := by
    intro fuel input
    by_cases h : (collectBatch input [] "").1.isEmpty <;> simp [runLoop, h]
  refine ⟨hone, ?_⟩
  rw [hone 8 (List.replicate 101 "a")]
  have hcb : collectBatch (List.replicate 101 "a") [] "" =
      (List.replicate 100 "a", ["a"]) := by
    set_option maxRecDepth 10000 in rfl
  rw [hcb]
  rfl

/-- Every flush the loop performs holds at most 50 responses and is
written uncompressed; the buffer invariant `≤ 49` is maintained; and
the written plus retained responses form a sublist of the initial
buffer plus the incoming responses. -/
lemma flushLoop_spec (rs : List String) (b : ResponseBuffer)
    (hinv : b.buffer.length ≤ 49) :
    (∀ f ∈ (flushLoop rs b).1, f.items.length ≤ 50 ∧ ∃ xs, f = .plain xs) ∧
    (flushLoop rs b).2.buffer.length ≤ 49 ∧
    List.Sublist
      (((flushLoop rs b).1.map Flush.items).join ++ (flushLoop rs b).2.buffer)
      (b.buffer ++ rs) := by
  induction rs generalizing b with
  | nil =>
      refine ⟨fun f hf => absurd hf (List.not_mem_nil f), hinv, ?_⟩
      simp [flushLoop]
  | cons r rest ih =>
      have hlen1 : (b.add r).2.buffer.length ≤ b.buffer.length + 1 := by
        unfold ResponseBuffer.add
        by_cases hc : b.max_size < b.current_size + r.utf8ByteSize
        · simp [hc]
        · simp [hc]
      by_cases hfl : (!(b.add r).1 || (b.add r).2.should_flush) = true
      · -- flush branch
        have hred : flushLoop (r :: rest) b =
            ((if 100 < (b.add r).2.buffer.length
              then Flush.compressed (b.add r).2.buffer
              else Flush.plain (b.add r).2.buffer) ::
              (flushLoop rest ⟨[], (b.add r).2.max_size, 0⟩).1,
             (flushLoop rest ⟨[], (b.add r).2.max_size, 0⟩).2) := by
          simp only [flushLoop]
          rw [if_pos hfl]
          rfl
        have hle : (b.add r).2.buffer.length ≤ 50 := by omega
        have hnc : ¬ (100 < (b.add r).2.buffer.length) := by omega
        obtain ⟨h1, h2, h3⟩ :=
          ih (⟨[], (b.add r).2.max_size, 0⟩ : ResponseBuffer) (by simp)
        refine ⟨?_, ?_, ?_⟩
        · intro f hf
          rw [hred] at hf
          rcases List.mem_cons.mp hf with hf | hf
          · rw [if_neg hnc] at hf
            exact hf ▸ ⟨hle, _, rfl⟩
          · exact h1 f hf
        · rw [hred]; exact h2
        · rw [hred]
          simp only [List.map_cons, List.join, if_neg hnc, Flush.items]
          have hbuf : (b.add r).2.buffer = b.buffer ++ [r] ∨
              (b.add r).2.buffer = b.buffer := by
            unfold ResponseBuffer.add
            by_cases hc : b.max_size < b.current_size + r.utf8ByteSize
            · right; simp [hc]
            · left; simp [hc]
          have h3' : List.Sublist
              (((flushLoop rest
                  (⟨[], (b.add r).2.max_size, 0⟩ : ResponseBuffer)).1.map
                    Flush.items).join ++
                (flushLoop rest
                  (⟨[], (b.add r).2.max_size, 0⟩ : ResponseBuffer)).2.buffer)
              rest := by
            simpa using h3
          rcases hbuf with hbuf | hbuf
          · rw [hbuf]
            have hgoal := (h3'.cons₂ r).append_left b.buffer
            simpa [List.append_assoc] using hgoal
          · rw [hbuf]
            have hgoal := (h3'.cons r).append_left b.buffer
            simpa [List.append_assoc] using hgoal
      · -- no flush: the add succeeded and no threshold was reached
        have hadd : (b.add r).1 = true := by
          by_contra hc
          rw [Bool.not_eq_true] at hc
          simp [hc] at hfl
        have hsf : (b.add r).2.should_flush = false := by
          by_contra hc
          rw [Bool.not_eq_false] at hc
          simp [hc] at hfl
        have hred : flushLoop (r :: rest) b = flushLoop rest (b.add r).2 := by
          simp only [flushLoop]
          rw [if_neg hfl]
        have hlt : (b.add r).2.buffer.length ≤ 49 := by
          unfold ResponseBuffer.should_flush at hsf
          rw [Bool.or_eq_false_iff] at hsf
          have := hsf.2
          rw [decide_eq_false_iff_not] at this
          omega
        obtain ⟨h1, h2, h3⟩ := ih (b.add r).2 hlt
        have hbuf : (b.add r).2.buffer = b.buffer ++ [r] := by
          unfold ResponseBuffer.add
          unfold ResponseBuffer.add at hadd
          by_cases hc : b.max_size < b.current_size + r.utf8ByteSize
          · simp [hc] at hadd
          · simp [hc]
        refine ⟨?_, ?_, ?_⟩
        · intro f hf; rw [hred] at hf; exact h1 f hf
        · rw [hred]; exact h2
        · rw [hred]
          have h4 := h3
          rw [hbuf] at h4
          simpa [List.append_assoc] using h4

/-- **C10.** Every flush performed by the dispatch loop holds at most
50 responses, so the compressed branch (guarded by more than 100
buffered items, `src/server.rs:153`) is never taken and all output is
uncompressed line-delimited JSON; a response rejected by the buffer\'s
byte bound is dropped: it appears in no flush and is not retained.
(`src/cache.rs`, lines 120–139; `src/server.rs`, lines 149–169.) -/
theorem C10_flush_bound_and_drop (rs : List String) (b : ResponseBuffer)
    (hinv : b.buffer.length ≤ 49) :
    (∀ f ∈ (flushLoop rs b).1, f.items.length ≤ 50 ∧ ∃ xs, f = .plain xs) ∧
    (flushLoop rs b).2.buffer.length ≤ 49 ∧
    (∀ r rest, (b.add r).1 = false → r ∉ b.buffer → r ∉ rest →
      (∀ f ∈ (flushLoop (r :: rest) b).1, r ∉ f.items) ∧
      r ∉ (flushLoop (r :: rest) b).2.buffer) := by
  obtain ⟨h1, h2, -⟩ := flushLoop_spec rs b hinv
  refine ⟨h1, h2, ?_⟩
  intro r rest hrej hrb hrr
  have hfl : (!(b.add r).1 || (b.add r).2.should_flush) = true := by
    rw [hrej]; rfl
  have hsame : (b.add r).2 = b := by
    unfold ResponseBuffer.add
    unfold ResponseBuffer.add at hrej
    by_cases hc : b.max_size < b.current_size + r.utf8ByteSize
    · simp [hc]
    · simp [hc] at hrej
  have hred : flushLoop (r :: rest) b =
      ((if 100 < (b.add r).2.buffer.length
        then Flush.compressed (b.add r).2.buffer
        else Flush.plain (b.add r).2.buffer) ::
        (flushLoop rest ⟨[], (b.add r).2.max_size, 0⟩).1,
       (flushLoop rest ⟨[], (b.add r).2.max_size, 0⟩).2) := by
    simp only [flushLoop]
    rw [if_pos hfl]
    rfl
  obtain ⟨-, -, h3⟩ :=
    flushLoop_spec rest (⟨[], (b.add r).2.max_size, 0⟩ : ResponseBuffer) (by simp)
  have h3' : List.Sublist
      (((flushLoop rest
          (⟨[], (b.add r).2.max_size, 0⟩ : ResponseBuffer)).1.map
            Flush.items).join ++
        (flushLoop rest
          (⟨[], (b.add r).2.max_size, 0⟩ : ResponseBuffer)).2.buffer)
      rest := by
    simpa using h3
  have hnotail : ∀ x,
      x ∈ (((flushLoop rest
          (⟨[], (b.add r).2.max_size, 0⟩ : ResponseBuffer)).1.map
            Flush.items).join ++
        (flushLoop rest
          (⟨[], (b.add r).2.max_size, 0⟩ : ResponseBuffer)).2.buffer) →
      x ∈ rest := fun x hx => h3'.subset hx
  constructor
  · intro f hf
    rw [hred] at hf
    rcases List.mem_cons.mp hf with hf | hf
    · intro hmem
      rw [hf] at hmem
      have hrin : r ∈ (b.add r).2.buffer := by
        by_cases hc : 100 < (b.add r).2.buffer.length
        · simpa [if_pos hc, Flush.items] using hmem
        · simpa [if_neg hc, Flush.items] using hmem
      rw [hsame] at hrin
      exact hrb hrin
    · intro hmem
      apply hrr
      exact hnotail r (List.mem_append.mpr (Or.inl
        (List.mem_join.mpr ⟨f.items, List.mem_map.mpr ⟨f, hf, rfl⟩, hmem⟩)))
  · intro hmem
    rw [hred] at hmem
    exact hrr (hnotail r (List.mem_append.mpr (Or.inr hmem)))

/-- Witness for `C10_flush_bound_and_drop` on one response and an
empty buffer of byte capacity 10. -/
theorem C10_flush_bound_and_drop_witness :
    (∀ f ∈ (flushLoop ["x"] (ResponseBuffer.new 10)).1,
        f.items.length ≤ 50 ∧ ∃ xs, f = .plain xs) ∧
    (flushLoop ["x"] (ResponseBuffer.new 10)).2.buffer.length ≤ 49 ∧
    (∀ r rest, ((ResponseBuffer.new 10).add r).1 = false →
      r ∉ (ResponseBuffer.new 10).buffer → r ∉ rest →
      (∀ f ∈ (flushLoop (r :: rest) (ResponseBuffer.new 10)).1, r ∉ f.items) ∧
      r ∉ (flushLoop (r :: rest) (ResponseBuffer.new 10)).2.buffer) :=
  C10_flush_bound_and_drop ["x"] (ResponseBuffer.new 10) (by decide)

lemma find?_completionLog (g : Nat → TaskResult) (σ : List Nat) (i : Nat)
    (h : i ∈ σ) :
    (σ.map (fun j => (j, g j))).find? (fun p => p.1 == i) = some (i, g i) := by
  induction σ with
  | nil => cases h
  | cons j σ ih =>
      by_cases hj : j = i
      · subst hj
        simp [List.find?_cons]
      · have hi : i ∈ σ := by
          rcases List.mem_cons.mp h with h | h
          · exact absurd h.symm hj
          · exact h
        simp [List.find?_cons, hj, ih hi]

lemma range_map_getD {α β : Type} (l : List α) (d : α) (f : α → β) :
    (List.range l.length).map (fun i => f (l.getD i d)) = l.map f := by
  induction l with
  | nil => rfl
  | cons a l ih =>
      rw [List.length_cons, List.range_succ_eq_map]
      simp only [List.map_cons, List.map_map]
      refine congrArg₂ _ (by simp) ?_
      rw [← ih]
      apply List.map_congr_left
      intro i hi
      simp [Function.comp, List.getD_cons_succ]

/-- **C2.** For a batch of `N` requests, the emitted response list has
exactly one response per slot in submission order — response `i` is
the serialization of request `i`'s own task result — for every
completion order the scheduler can choose; in particular the output is
independent of the completion permutation.  (`src/server.rs`,
lines 103–146: handles are awaited in submission order.) -/
theorem C2_batch_order_preserved (proc : String → TaskResult)
    (requests : List String) (σ : List Nat)
    (hσ : σ.Perm (List.range requests.length)) :
    runBatch proc requests σ = requests.map (fun r => slotResponse (proc r)) ∧
    (runBatch proc requests σ).length = requests.length := by
  have hmain : runBatch proc requests σ =
      requests.map (fun r => slotResponse (proc r)) := by
    unfold runBatch
    have hstep : ∀ i ∈ List.range requests.length,
        slotResponse (awaitSlot (completionLog proc requests σ) i) =
          slotResponse (proc (requests.getD i "")) := by
      intro i hi
      have hiσ : i ∈ σ := hσ.mem_iff.mpr hi
      unfold awaitSlot completionLog
      rw [find?_completionLog (fun j => proc (requests.getD j "")) σ i hiσ]
      rfl
    rw [List.map_congr_left hstep]
    exact range_map_getD requests "" (fun r => slotResponse (proc r))
  exact ⟨hmain, by rw [hmain, List.length_map]⟩

/-- Witness for `C2_batch_order_preserved`: two requests whose tasks
complete in reverse order. -/
theorem C2_batch_order_preserved_witness :
    runBatch (fun r => if r = "p" then .joinErr "boom" else .ok (some (.str r)))
        ["a", "p"] [1, 0] =
      ["a", "p"].map (fun r => slotResponse
        (if r = "p" then .joinErr "boom" else .ok (some (.str r)))) ∧
    (runBatch (fun r => if r = "p" then .joinErr "boom" else .ok (some (.str r)))
        ["a", "p"] [1, 0]).length = 2 :=
  C2_batch_order_preserved
    (fun r => if r = "p" then .joinErr "boom" else .ok (some (.str r)))
    ["a", "p"] [1, 0] (by decide)

/-- **C9.** A parsed request object with no `method` member yields a
`-32600` invalid-request error (with its `id` echoed), and a
`tools/call` whose tool name is outside the static nine-name catalog
yields a `-32601` error, for every tool-execution behaviour.
(`src/server.rs`, lines 215–230 and 439–441.) -/
theorem C9_protocol_error_codes
    (toolExec : String → Json → Except String String)
    (kvs : List (String × Json))
    (hm : kvs.find? (fun p => p.1 == "method") = none)
    (id : Option Json) (params : Json) (tc : ToolCall)
    (hp : parseToolCall params = some tc) (hu : tc.name ∉ knownTools) :
    handleRequestParsed toolExec (.obj kvs) =
      errorResponse ((Json.obj kvs).getKey? "id") (-32600) "Invalid Request" ∧
    handleToolsCall toolExec id params =
      errorResponse id (-32601) "Unknown tool" := by
  constructor
  · unfold handleRequestParsed
    have hmk : (Json.obj kvs).getKey? "method" = none := by
      show (kvs.find? (fun p => p.1 == "method")).map Prod.snd = none
      rw [hm]
      rfl
    rw [hmk]
    rfl
  · unfold handleToolsCall
    rw [hp]
    simp [hu]

/-- Witness for `C9_protocol_error_codes`: the parsed request
`{"id": 1}` and a `tools/call` on the unknown tool `"nope"`. -/
theorem C9_protocol_error_codes_witness :
    handleRequestParsed (fun _ _ => .ok "") (.obj [("id", .num 1)]) =
      errorResponse ((Json.obj [("id", .num 1)]).getKey? "id") (-32600)
        "Invalid Request" ∧
    handleToolsCall (fun _ _ => .ok "") (some (.num 1))
        (.obj [("name", .str "nope"), ("arguments", .null)]) =
      errorResponse (some (.num 1)) (-32601) "Unknown tool" :=
  C9_protocol_error_codes (fun _ _ => .ok "") [("id", .num 1)] rfl
    (some (.num 1)) (.obj [("name", .str "nope"), ("arguments", .null)])
    ⟨"nope", .null⟩ rfl (by decide)

lemma decodeLoop_stuck (n : Nat) :
    ∀ entries, decodeLoop n [.int 2, .int 99] 1 entries = .outOfFuel := by
  induction n with
  | zero => intro entries; rfl
  | succ n ih =>
      intro entries
      simpa [decodeLoop, keyAt] using ih entries

/-- **C6.** The reply decoder is not total on malformed replies: a
non-byte-string, non-bulk element in a key slot hits the
`_ => continue` arm (`src/tools/search.rs:385`), which skips the
`index += 3` at the bottom of the loop, so the decode never finishes
no matter how many iterations it is allowed; and a `$` whole-document
value that parses to non-object JSON panics in
`value.as_object().unwrap()` (line 413) instead of being skipped. -/
theorem C6_decoder_nontermination_and_panic :
    (∀ fuel : Nat, decodeLoop fuel [.int 2, .int 99] 1 [] = .outOfFuel) ∧
    decodeReply 2
        [.int 1, .data "doc:1", .data "0.9", .bulk [.data "$", .data "5"]] =
      .panicked :=
  ⟨fun fuel => decodeLoop_stuck fuel [], rfl⟩

/-- **C7.** Decoding the synthetic reply
`[2, "doc:1", "0.9", ["content","\"A\""], "doc:2", "0.5",
["content","\"B\""]]` yields total 2 and exactly the two records
`{_key: "doc:1", _score: 0.9, content: "A"}` and
`{_key: "doc:2", _score: 0.5, content: "B"}`, in that order.
(`src/tools/search.rs`, lines 363–433.) -/
theorem C7_decode_synthetic_reply :
    decodeReply 3 [.int 2, .data "doc:1", .data "0.9",
        .bulk [.data "content", .data "\"A\""],
        .data "doc:2", .data "0.5", .bulk [.data "content", .data "\"B\""]] =
      .ok (.obj [("total", .num 2),
        ("results", .arr
          [.obj [("_key", .str "doc:1"), ("_score", .num (9/10)),
                 ("content", .str "A")],
           .obj [("_key", .str "doc:2"), ("_score", .num (1/2)),
                 ("content", .str "B")]])]) := by
  have h1 : (9/10 : ℚ) = mkRat 9 10 := by norm_num [mkRat, Rat.normalize]
  have h2 : (1/2 : ℚ) = mkRat 5 10 := by norm_num [mkRat, Rat.normalize]
  have h3 : (2 : ℚ) = ((2 % (2 ^ 64 : Int)).toNat : ℚ) := by
    norm_num
    rfl
  rw [h1, h2, h3]
  rfl

end Warp
